import Mathlib

/-!
Verification of the vineyard-health pipeline: a shallow embedding of the
three numerically meaningful transforms of the repository
(`vegetation_indices.ndvi`, `utils.create_grid_with_color_mapping`,
`utils.extract_vineyard_health_data`) together with theorems settling the
frozen claims about them.

Modelling conventions:
* 8-bit rasters are total functions `Nat → Nat → Nat` queried only inside
  an explicit height/width; floating-point rasters are `Nat → Nat → ℚ`
  (machine floats abstracted as exact rationals).
* Python exceptions are an `Except PyError` result: `valueError` for the
  `ValueError` raised by `range` with a zero step, `unboundLocal` for the
  `UnboundLocalError` raised when `image_without_grid` is never assigned,
  `zeroDivision` for `ZeroDivisionError`.
* the numpy silent float `0.0 / 0` produces NaN (with a warning, no
  exception); NaN-valued statistics are modelled as `none : Option ℚ`.
* Storing an out-of-range Python int into a `uint8` array wraps modulo
  256 (C-style cast), as the reference behavior documents.
-/

/-- The Python runtime failures that the embedded functions can raise. -/
inductive PyError where
  | valueError
  | unboundLocal
  | zeroDivision
deriving DecidableEq

/-- An 8-bit single-channel raster buffer (`numpy` uint8 array), queried
only at in-bounds pixel coordinates `(row, column)`. -/
abbrev Buf := Nat → Nat → Nat

/-- A floating-point index raster, with floats abstracted as exact
rationals. -/
abbrev IndexRaster := Nat → Nat → ℚ

/-- Fuel-driven loop of Python `range(0, stop, step)` for a positive
step: emit `cur` while `cur < stop`, advancing by `step`.  `stop` units
of fuel always suffice since `step ≥ 1`. -/
def pyRangeGo (stop step : Nat) : Nat → Nat → List Nat
  | 0, _ => []
  | fuel + 1, cur => if cur < stop then cur :: pyRangeGo stop step fuel (cur + step) else []

/-- Python `range(0, stop, step)` for a positive step. -/
def pyRange (stop step : Nat) : List Nat :=
  pyRangeGo stop step stop 0

/-- Python `int()` truncation toward zero of an exact rational. -/
def pyTrunc (q : ℚ) : Int :=
  q.num.tdiv q.den

/-- The per-cell rescaling step `int(mean_value * 255 * 20)` of
`create_grid_with_color_mapping`. -/
def rescale (mean : ℚ) : Int :=
  pyTrunc (mean * 255 * 20)

/-- Storing a Python int into a numpy `uint8` array wraps modulo 256. -/
def storeU8 (v : Int) : Nat :=
  (v % 256).toNat

/-- Indices selected by the clipped numpy slice `start : start+len`
against a dimension of size `bound`. -/
def cellIdx (start len bound : Nat) : List Nat :=
  (List.range (min (start + len) bound - start)).map (start + ·)

/-- Sum of the index-raster samples in the clipped cell
`img[y:y+ch, x:x+cw]`. -/
def cellSum (img : IndexRaster) (h w y x cw ch : Nat) : ℚ :=
  ((cellIdx y ch h).map fun py => ((cellIdx x cw w).map fun px => img py px).sum).sum

/-- Number of samples of the clipped cell `img[y:y+ch, x:x+cw]`. -/
def cellCount (h w y x cw ch : Nat) : Nat :=
  (min (y + ch) h - y) * (min (x + cw) w - x)

/-- `np.mean` of the clipped cell `img[y:y+ch, x:x+cw]` (the pipeline
only evaluates it on nonempty cells). -/
def cellMean (img : IndexRaster) (h w y x cw ch : Nat) : ℚ :=
  cellSum img h w y x cw ch / (cellCount h w y x cw ch : ℚ)

/-- The numpy slice assignment
`color_mapped_ndvi[y:y+ch, x:x+cw] = v` on an `h × w` buffer. -/
def fillCell (b : Buf) (v : Nat) (y x cw ch h w : Nat) : Buf :=
  fun py px =>
    if y ≤ py ∧ py < min (y + ch) h ∧ x ≤ px ∧ px < min (x + cw) w then v else b py px

/-- `cv2.rectangle(b, (x, y), (x+cw-1, y+ch-1), 255, 1)`: write the
max intensity on the 1-pixel-wide perimeter of the cell rectangle,
clipped to the `h × w` image. -/
def drawRect (b : Buf) (y x cw ch h w : Nat) : Buf :=
  fun py px =>
    if py < h ∧ px < w ∧ y ≤ py ∧ py ≤ y + ch - 1 ∧ x ≤ px ∧ px ≤ x + cw - 1 ∧
        (py = y ∨ py = y + ch - 1 ∨ px = x ∨ px = x + cw - 1) then 255
    else b py px

/-- The row-major list of cell anchors visited by the two nested loops
`for y in range(0, h, ch): for x in range(0, w, cw):`. -/
def gridCells (h w cw ch : Nat) : List (Nat × Nat) :=
  (pyRange h ch).flatMap fun y => (pyRange w cw).map fun x => (y, x)

/-- One iteration of the grid loop.  The accumulator is
`(color_mapped_ndvi, image_without_grid)`: the cell region of the running
buffer is filled with the rescaled mean, the snapshot
`image_without_grid = np.copy(color_mapped_ndvi)` is taken, and only then
is the grid rectangle drawn onto the running buffer — exactly the
statement order of the source. -/
def gridStep (img : IndexRaster) (h w cw ch : Nat) (acc : Buf × Buf) (c : Nat × Nat) :
    Buf × Buf :=
  let filled := fillCell acc.1 (storeU8 (rescale (cellMean img h w c.1 c.2 cw ch)))
    c.1 c.2 cw ch h w
  (drawRect filled c.1 c.2 cw ch h w, filled)

/-- The all-zero buffer `np.zeros((h, w), dtype=np.uint8)`. -/
def zeroBuf : Buf := fun _ _ => 0

/-- `utils.create_grid_with_color_mapping(ndvi_image, dim_x, dim_y)` on an
`h × w` index raster.  Returns `(image_without_grid, image_with_visible_grid)`.
A zero step makes Python `range` raise `ValueError` (for `dim_x = 0` only
when the outer loop runs at least once); if the loop body never runs,
`image_without_grid` is unbound and the `return` raises
`UnboundLocalError`. -/
def create_grid_with_color_mapping (img : IndexRaster) (h w : Nat) (dimx dimy : Int) :
    Except PyError (Buf × Buf) :=
  if dimy = 0 then .error .valueError
  else if (if 0 < dimy then pyRange h dimy.toNat else []) ≠ [] ∧ dimx = 0 then
    .error .valueError
  else if 0 < dimx ∧ 0 < dimy then
    if gridCells h w dimx.toNat dimy.toNat = [] then .error .unboundLocal
    else
      .ok (((gridCells h w dimx.toNat dimy.toNat).foldl
          (gridStep img h w dimx.toNat dimy.toNat) (zeroBuf, zeroBuf)).2,
        ((gridCells h w dimx.toNat dimy.toNat).foldl
          (gridStep img h w dimx.toNat dimy.toNat) (zeroBuf, zeroBuf)).1)
  else .error .unboundLocal

/-- The row-major pixel traversal `for y in range(h): for x in range(w):`. -/
def pixelList (h w : Nat) : List (Nat × Nat) :=
  (List.range h).flatMap fun y => (List.range w).map fun x => (y, x)

/-- One iteration of the pixel-classification loop of
`extract_vineyard_health_data`.  The accumulator is
`(total_vineyard_pixels, total_plant_pixels, healthiness_values)`; both
sentinel checks are evaluated independently for every pixel. -/
def extractStep (img : Buf) (outC gndC : Nat) (acc : Nat × Nat × List Nat) (p : Nat × Nat) :
    Nat × Nat × List Nat :=
  let pv := img p.1 p.2
  let acc1 := if pv ≠ outC then (acc.1 + 1, acc.2.1, acc.2.2) else acc
  if pv ≠ outC ∧ pv ≠ gndC then (acc1.1, acc1.2.1 + 1, acc1.2.2 ++ [pv]) else acc1

/-- The statistics tuple returned by `extract_vineyard_health_data`.
NaN-valued float fields are modelled as `none`. -/
structure HealthStats where
  total_vineyard_pixels : Nat
  total_plant_pixels : Nat
  vine_area_meters : ℚ
  ndvi_mean_healthiness_level : Option ℚ
  percentage_ndvi_mean_level : Option ℚ

/-- `np.interp(x, [-1, 1], [0, 100])`: linear interpolation with
clamping outside the domain. -/
def npInterpScale (x : ℚ) : ℚ :=
  if x ≤ -1 then 0 else if 1 ≤ x then 100 else 50 + 50 * x

/-- `utils.extract_vineyard_health_data(image_without_grid, area, outside
color, ground color)` on an `h × w` raster.  `total_vineyard_pixels = 0`
raises `ZeroDivisionError` (a Python int division); an empty healthiness
accumulation makes `np.sum([]) / 0` a numpy float division, which yields
NaN (`none`) with only a warning, and `np.interp` propagates it. -/
def extract_vineyard_health_data (img : Buf) (h w : Nat) (area : ℚ) (outC gndC : Nat) :
    Except PyError HealthStats :=
  let r := (pixelList h w).foldl (extractStep img outC gndC) (0, 0, [])
  if r.1 = 0 then .error .zeroDivision
  else
    let mean : Option ℚ :=
      if r.2.2.length = 0 then none
      else some (((r.2.2.sum : ℚ) / (r.2.2.length : ℚ)) / 255)
    .ok ⟨r.1, r.2.1, ((r.2.1 : ℚ) * area) / (r.1 : ℚ), mean, mean.map npInterpScale⟩

/-- `vegetation_indices.ndvi(nir, r)`: elementwise `(nir - r)/(nir + r)`
after promotion to floating point, on same-shaped single-channel rasters
given as rows of samples. -/
def ndvi (nir r : List (List ℚ)) : List (List ℚ) :=
  List.zipWith (List.zipWith fun a b => (a - b) / (a + b)) nir r

/-- The pixel whose value equals the outside-vineyard sentinel is the one
excluded from `total_vineyard_pixels` (Python `pixel_value != outside`). -/
def isVineyardPixel (img : Buf) (outC : Nat) (p : Nat × Nat) : Bool :=
  img p.1 p.2 != outC

/-- A plant pixel equals neither sentinel. -/
def isPlantPixel (img : Buf) (outC gndC : Nat) (p : Nat × Nat) : Bool :=
  img p.1 p.2 != outC && img p.1 p.2 != gndC

/-- Count of non-outside pixels of the `h × w` raster. -/
def countVineyard (img : Buf) (h w outC : Nat) : Nat :=
  ((pixelList h w).filter (isVineyardPixel img outC)).length

/-- The intensities of the plant pixels, in traversal order. -/
def plantVals (img : Buf) (h w outC gndC : Nat) : List Nat :=
  ((pixelList h w).filter (isPlantPixel img outC gndC)).map fun p => img p.1 p.2

/-- Count of plant pixels of the `h × w` raster. -/
def countPlant (img : Buf) (h w outC gndC : Nat) : Nat :=
  ((pixelList h w).filter (isPlantPixel img outC gndC)).length

/-- Reads one pixel of the analysis (grid-less) raster of a Grid
Aggregator result. -/
def analysisPixel (res : Except PyError (Buf × Buf)) (y x : Nat) : Option Nat :=
  match res with
  | .ok p => some (p.1 y x)
  | .error _ => none

/-- The all-zero index raster used as a concrete Grid Aggregator input. -/
def zeroIndexRaster : IndexRaster := fun _ _ => 0

/-- The 4×4 scenario raster whose samples all equal 128. -/
def constIndexRaster128 : IndexRaster := fun _ _ => 128

/-- A 1×1 raster whose only pixel carries the ground sentinel value 5. -/
def demoGroundRaster : Buf := fun _ _ => 5

/-- A 1×1 raster whose only pixel is a plant pixel of intensity 7. -/
def demoRaster7 : Buf := fun _ _ => 7

/-- A 10×10 raster with 40 plant pixels (intensity 7) and 60 ground
pixels (intensity 5), no outside pixels. -/
def demoRaster10 : Buf := fun y _ => if y < 4 then 7 else 5

/-- A 2×2 raster mixing one outside pixel (0), one ground pixel (5) and
two plant pixels (7 and 9). -/
def demoRasterMix : Buf := fun y x =>
  if y = 0 then (if x = 0 then 0 else 5) else (if x = 0 then 7 else 9)

/-- Fallback statistics value for projecting out of an `Except`. -/
def fallbackStats : HealthStats := ⟨0, 0, 0, none, none⟩

/-- Projects the statistics out of a Health Extractor result. -/
def statsOf (res : Except PyError HealthStats) : HealthStats :=
  match res with
  | .ok r => r
  | .error _ => fallbackStats

/-- The statistics the Health Extractor returns on the all-ground 1×1
raster (outside sentinel 0, ground sentinel 5, area 10). -/
def c2stats : HealthStats :=
  statsOf (extract_vineyard_health_data demoGroundRaster 1 1 10 0 5)

/-- The statistics returned on `demoRaster10`. -/
def c5stats : HealthStats :=
  statsOf (extract_vineyard_health_data demoRaster10 10 10 10 0 5)

/-- The statistics returned on the 1×1 plant raster. -/
def c9stats : HealthStats :=
  statsOf (extract_vineyard_health_data demoRaster7 1 1 10 0 5)

/-- The statistics returned on the 2×2 mixed raster. -/
def c10stats : HealthStats :=
  statsOf (extract_vineyard_health_data demoRasterMix 2 2 10 0 5)

/-- Projects the raster pair out of a Grid Aggregator result. -/
def gridPairOf (res : Except PyError (Buf × Buf)) : Buf × Buf :=
  match res with
  | .ok p => p
  | .error _ => (zeroBuf, zeroBuf)

/-- The raster pair the Grid Aggregator returns on a 3×3 zero raster
with a single 3×3 cell. -/
def c7pair : Buf × Buf :=
  gridPairOf (create_grid_with_color_mapping zeroIndexRaster 3 3 3 3)

theorem ceil_div_succ_step (a step : Nat) (hstep : 0 < step) (ha : 0 < a) :
    (a + step - 1) / step = (a - step + step - 1) / step + 1 := by
  rcases le_or_lt a step with hle | hlt
  · have h1 : a - step = 0 := by omega
    have h2 : a + step - 1 = (a - 1) + step := by omega
    have h3 : (a - 1) / step = 0 := Nat.div_eq_of_lt (by omega)
    have h4 : (0 + step - 1) / step = 0 := Nat.div_eq_of_lt (by omega)
    rw [h1, h2, Nat.add_div_right _ hstep, h3, h4]
  · have h5 : a - step + step - 1 = a - 1 := by omega
    have h2 : a + step - 1 = (a - 1) + step := by omega
    rw [h5, h2, Nat.add_div_right _ hstep]

theorem pyRangeGo_eq (stop step : Nat) (hstep : 0 < step) :
    ∀ fuel cur, stop ≤ cur + fuel * step →
      pyRangeGo stop step fuel cur =
        (List.range ((stop - cur + step - 1) / step)).map fun i => cur + i * step := by
  intro fuel
  induction fuel with
  | zero =>
    intro cur hle
    have h0 : stop - cur = 0 := by omega
    have h1 : (step - 1) / step = 0 := Nat.div_eq_of_lt (by omega)
    simp [pyRangeGo, h0, h1]
  | succ fuel ih =>
    intro cur hle
    by_cases hcur : cur < stop
    · have hsm : (fuel + 1) * step = fuel * step + step := Nat.succ_mul fuel step
      have hle2 : stop ≤ (cur + step) + fuel * step := by omega
      have hrec := ih (cur + step) hle2
      have hsub : stop - (cur + step) = stop - cur - step := by omega
      have hsplit : (stop - cur + step - 1) / step = (stop - cur - step + step - 1) / step + 1 :=
        ceil_div_succ_step (stop - cur) step hstep (by omega)
      rw [show pyRangeGo stop step (fuel + 1) cur
            = cur :: pyRangeGo stop step fuel (cur + step) by simp [pyRangeGo, hcur]]
      rw [hrec, hsub, hsplit, List.range_succ_eq_map]
      simp only [List.map_cons, List.map_map]
      congr 1
      · simp
      · apply List.map_congr_left
        intro i _
        simp only [Function.comp_apply, Nat.succ_mul]
        ring
    · have h0 : stop - cur = 0 := by omega
      have h1 : (step - 1) / step = 0 := Nat.div_eq_of_lt (by omega)
      simp [pyRangeGo, hcur, h0, h1]

theorem pyRange_eq (stop step : Nat) (hstep : 0 < step) :
    pyRange stop step = (List.range ((stop + step - 1) / step)).map fun i => i * step := by
  have hfuel : stop ≤ 0 + stop * step := by
    have := Nat.le_mul_of_pos_right stop hstep
    omega
  have h := pyRangeGo_eq stop step hstep stop 0 hfuel
  simpa [pyRange] using h

theorem flatMap_map_list {α β γ : Type} (g : α → β) (f : β → List γ) (l : List α) :
    (l.map g).flatMap f = l.flatMap fun a => f (g a) := by
  induction l with
  | nil => simp
  | cons a t ih => simp [ih]

theorem range_flatMap_range {α : Type} (f : Nat → Nat → α) (n : Nat) :
    ∀ m : Nat, (List.range m).flatMap (fun a => (List.range n).map (f a)) =
      (List.range (m * n)).map fun i => f (i / n) (i % n) := by
  intro m
  induction m with
  | zero => simp
  | succ m ih =>
    rw [List.range_succ, List.flatMap_append, ih,
      show (m + 1) * n = m * n + n from Nat.succ_mul m n, List.range_add, List.map_append]
    congr 1
    simp only [List.flatMap_cons, List.flatMap_nil, List.append_nil, List.map_map]
    apply List.map_congr_left
    intro j hj
    rw [List.mem_range] at hj
    have hn : 0 < n := lt_of_le_of_lt (Nat.zero_le j) hj
    have h1 : (m * n + j) / n = m := by
      rw [Nat.mul_comm, Nat.mul_add_div hn, Nat.div_eq_of_lt hj, Nat.add_zero]
    have h2 : (m * n + j) % n = j := by
      rw [Nat.mul_comm, Nat.mul_add_mod, Nat.mod_eq_of_lt hj]
    rw [Function.comp_apply, h1, h2]

theorem gridCells_eq (h w cw ch : Nat) (hcw : 0 < cw) (hch : 0 < ch) :
    gridCells h w cw ch =
      (List.range (((h + ch - 1) / ch) * ((w + cw - 1) / cw))).map
        fun i => ((i / ((w + cw - 1) / cw)) * ch, (i % ((w + cw - 1) / cw)) * cw) := by
  rw [gridCells, pyRange_eq h ch hch, pyRange_eq w cw hcw, flatMap_map_list]
  simp only [List.map_map]
  exact range_flatMap_range (fun a b => (a * ch, b * cw)) ((w + cw - 1) / cw) ((h + ch - 1) / ch)

theorem le_mul_ceilDiv (a d : Nat) (hd : 0 < d) : a ≤ d * ((a + d - 1) / d) := by
  rcases Nat.eq_zero_or_pos a with h0 | h0
  · simp [h0]
  · have hdm := Nat.div_add_mod (a + d - 1) d
    have hmod : (a + d - 1) % d < d := Nat.mod_lt _ hd
    set q := (a + d - 1) / d with hq
    set s := (a + d - 1) % d with hs
    set X := d * q with hX
    omega

theorem mul_add_pred_mod (a d : Nat) (hd : 0 < d) : (a * d + d - 1) % d = d - 1 := by
  rw [Nat.add_sub_assoc hd, Nat.mul_comm a d, Nat.mul_add_mod, Nat.mod_eq_of_lt (by omega)]

theorem pixelList_eq (h w : Nat) :
    pixelList h w = (List.range (h * w)).map fun i => (i / w, i % w) :=
  range_flatMap_range (fun a b => (a, b)) w h

theorem pixelList_length (h w : Nat) : (pixelList h w).length = h * w := by
  rw [pixelList_eq, List.length_map, List.length_range]

theorem mem_pixelList (h w : Nat) (p : Nat × Nat) :
    p ∈ pixelList h w ↔ p.1 < h ∧ p.2 < w := by
  cases p with
  | mk y x =>
    simp only [pixelList, List.mem_flatMap, List.mem_map, List.mem_range, Prod.mk.injEq]
    constructor
    · rintro ⟨a, ha, b, hb, hay, hbx⟩
      subst hay
      subst hbx
      exact ⟨ha, hb⟩
    · rintro ⟨hy, hx⟩
      exact ⟨y, hy, x, hx, rfl, rfl⟩

theorem extract_foldl_eq (img : Buf) (outC gndC : Nat) :
    ∀ (l : List (Nat × Nat)) (a b : Nat) (s : List Nat),
      l.foldl (extractStep img outC gndC) (a, b, s) =
        (a + (l.filter (isVineyardPixel img outC)).length,
         b + (l.filter (isPlantPixel img outC gndC)).length,
         s ++ (l.filter (isPlantPixel img outC gndC)).map fun p => img p.1 p.2) := by
  intro l
  induction l with
  | nil =>
    intro a b s
    simp
  | cons p t ih =>
    intro a b s
    rw [List.foldl_cons]
    by_cases h1 : img p.1 p.2 = outC
    · have hv : isVineyardPixel img outC p = false := by simp [isVineyardPixel, h1]
      have hp : isPlantPixel img outC gndC p = false := by simp [isPlantPixel, h1]
      have hstep : extractStep img outC gndC (a, b, s) p = (a, b, s) := by
        simp only [extractStep]
        rw [if_neg (not_not_intro h1), if_neg]
        rintro ⟨hc, -⟩
        exact hc h1
      rw [hstep, ih]
      simp [List.filter_cons, hv, hp]
    · by_cases h2 : img p.1 p.2 = gndC
      · have hv : isVineyardPixel img outC p = true := by simp [isVineyardPixel, h1]
        have hp : isPlantPixel img outC gndC p = false := by simp [isPlantPixel, h2]
        have hstep : extractStep img outC gndC (a, b, s) p = (a + 1, b, s) := by
          simp only [extractStep]
          rw [if_pos h1, if_neg]
          rintro ⟨-, hc⟩
          exact hc h2
        rw [hstep, ih]
        have hfv : List.filter (isVineyardPixel img outC) (p :: t) =
            p :: List.filter (isVineyardPixel img outC) t := by
          simp [List.filter_cons, hv]
        have hfp : List.filter (isPlantPixel img outC gndC) (p :: t) =
            List.filter (isPlantPixel img outC gndC) t := by
          simp [List.filter_cons, hp]
        rw [hfv, hfp, List.length_cons]
        simp only [Prod.mk.injEq]
        exact ⟨by omega, trivial⟩
      · have hv : isVineyardPixel img outC p = true := by simp [isVineyardPixel, h1]
        have hp : isPlantPixel img outC gndC p = true := by simp [isPlantPixel, h1, h2]
        have hstep : extractStep img outC gndC (a, b, s) p =
            (a + 1, b + 1, s ++ [img p.1 p.2]) := by
          simp only [extractStep]
          rw [if_pos h1, if_pos ⟨h1, h2⟩]
        rw [hstep, ih]
        have hfv : List.filter (isVineyardPixel img outC) (p :: t) =
            p :: List.filter (isVineyardPixel img outC) t := by
          simp [List.filter_cons, hv]
        have hfp : List.filter (isPlantPixel img outC gndC) (p :: t) =
            p :: List.filter (isPlantPixel img outC gndC) t := by
          simp [List.filter_cons, hp]
        rw [hfv, hfp, List.length_cons, List.length_cons, List.map_cons]
        simp only [Prod.mk.injEq]
        refine ⟨by omega, by omega, ?_⟩
        simp

theorem extract_spec (img : Buf) (h w : Nat) (area : ℚ) (outC gndC : Nat) (r : HealthStats)
    (hok : extract_vineyard_health_data img h w area outC gndC = .ok r) :
    r.total_vineyard_pixels = countVineyard img h w outC ∧
    r.total_plant_pixels = countPlant img h w outC gndC ∧
    0 < countVineyard img h w outC ∧
    r.vine_area_meters =
      (countPlant img h w outC gndC : ℚ) * area / (countVineyard img h w outC : ℚ) ∧
    r.ndvi_mean_healthiness_level =
      (if countPlant img h w outC gndC = 0 then none
       else some ((((plantVals img h w outC gndC).sum : ℚ) /
         (countPlant img h w outC gndC : ℚ)) / 255)) ∧
    r.percentage_ndvi_mean_level = r.ndvi_mean_healthiness_level.map npInterpScale := by
  simp only [extract_vineyard_health_data] at hok
  rw [extract_foldl_eq img outC gndC (pixelList h w) 0 0 []] at hok
  simp only [Nat.zero_add, List.nil_append] at hok
  by_cases h0 : ((pixelList h w).filter (isVineyardPixel img outC)).length = 0
  · rw [if_pos h0] at hok
    exact (Except.noConfusion hok)
  · rw [if_neg h0] at hok
    injection hok with hok2
    subst hok2
    refine ⟨rfl, rfl, Nat.pos_of_ne_zero h0, rfl, ?_, rfl⟩
    simp only [List.length_map]
    rfl

theorem foldl_gridStep_last (img : IndexRaster) (h w cw ch : Nat) :
    ∀ (t : List (Nat × Nat)) (c : Nat × Nat) (acc : Buf × Buf),
      ∃ cl, cl ∈ c :: t ∧
        ((c :: t).foldl (gridStep img h w cw ch) acc).1 =
          drawRect ((c :: t).foldl (gridStep img h w cw ch) acc).2 cl.1 cl.2 cw ch h w := by
  intro t
  induction t with
  | nil =>
    intro c acc
    refine ⟨c, List.mem_singleton_self c, ?_⟩
    simp [gridStep]
  | cons c2 t ih =>
    intro c acc
    obtain ⟨cl, hmem, heq⟩ := ih c2 (gridStep img h w cw ch acc c)
    refine ⟨cl, List.mem_cons_of_mem c hmem, ?_⟩
    rw [List.foldl_cons]
    exact heq

theorem drawRect_apply_ne (b : Buf) (y x cw ch h w py px : Nat)
    (h1 : py ≠ y) (h2 : py ≠ y + ch - 1) (h3 : px ≠ x) (h4 : px ≠ x + cw - 1) :
    drawRect b y x cw ch h w py px = b py px := by
  simp only [drawRect]
  rw [if_neg]
  rintro ⟨-, -, -, -, -, -, hc | hc | hc | hc⟩
  · exact h1 hc
  · exact h2 hc
  · exact h3 hc
  · exact h4 hc

theorem zipWith_getD {α β γ : Type} (f : α → β → γ) (d1 : α) (d2 : β) (d3 : γ) :
    ∀ (as : List α) (bs : List β) (i : Nat), i < as.length → as.length = bs.length →
      (List.zipWith f as bs).getD i d3 = f (as.getD i d1) (bs.getD i d2) := by
  intro as
  induction as with
  | nil =>
    intro bs i hi _
    simp at hi
  | cons a t ih =>
    intro bs i hi hlen
    cases bs with
    | nil => simp at hlen
    | cons b tb =>
      cases i with
      | zero => simp
      | succ n =>
        simp only [List.zipWith_cons_cons, List.getD_cons_succ]
        exact ih tb n (by simpa using hi) (by simpa using hlen)

theorem div_eq_of_between (py a d : Nat) (hd : 0 < d) (hle : a * d ≤ py)
    (hlt : py < a * d + d) : a = py / d := by
  have h1 : a ≤ py / d := by
    rw [Nat.le_div_iff_mul_le hd]
    exact hle
  have h2 : py / d < a + 1 := by
    rw [Nat.div_lt_iff_lt_mul hd, Nat.succ_mul]
    exact hlt
  omega

theorem div_mul_le_and_lt (py d : Nat) (hd : 0 < d) :
    (py / d) * d ≤ py ∧ py < (py / d) * d + d := by
  have hdm := Nat.div_add_mod py d
  have hm : py % d < d := Nat.mod_lt _ hd
  have hcomm : d * (py / d) = (py / d) * d := Nat.mul_comm d (py / d)
  rw [hcomm] at hdm
  omega

/-- C1 (failing-input evaluation): on the 4×4 all-zero index raster with
cell size (2,2), every per-cell mean intensity is 0, yet pixel (0,0) of
the returned analysis ("without grid") raster holds the grid-line value
255: the snapshot of `image_without_grid` is taken inside the loop, after
the rectangles of all previous cells were already drawn onto the shared
buffer, so the analysis raster does contain grid lines. -/
theorem analysis_raster_contains_grid_line :
    analysisPixel (create_grid_with_color_mapping zeroIndexRaster 4 4 2 2) 0 0 = some 255 ∧
    storeU8 (rescale (cellMean zeroIndexRaster 4 4 0 0 2 2)) = 0 ∧ (255 : Nat) ≠ 0 := by
  refine ⟨by decide, ?_, by decide⟩
  have hmean : cellMean zeroIndexRaster 4 4 0 0 2 2 = 0 := by
    simp [cellMean, cellSum, cellIdx, zeroIndexRaster]
  rw [hmean]
  have hresc : rescale 0 = 0 := by
    norm_num [rescale, pyTrunc]
  rw [hresc]
  decide

/-- C3: for every index raster, a non-positive cell width or height makes
the Grid Aggregator fail (Python raises `ValueError` for a zero step and
`UnboundLocalError` for a negative one) before any cell is processed: it
never hangs and never returns the two output rasters. -/
theorem grid_nonpositive_dims_fail (img : IndexRaster) (h w : Nat) (dimx dimy : Int)
    (hbad : dimx ≤ 0 ∨ dimy ≤ 0) :
    ∃ e, create_grid_with_color_mapping img h w dimx dimy = .error e := by
  unfold create_grid_with_color_mapping
  by_cases hy0 : dimy = 0
  · rw [if_pos hy0]
    exact ⟨.valueError, rfl⟩
  · rw [if_neg hy0]
    by_cases hc2 : (if 0 < dimy then pyRange h dimy.toNat else []) ≠ [] ∧ dimx = 0
    · rw [if_pos hc2]
      exact ⟨.valueError, rfl⟩
    · rw [if_neg hc2]
      have hc3 : ¬(0 < dimx ∧ 0 < dimy) := by
        rintro ⟨hx, hy⟩
        rcases hbad with hb | hb <;> omega
      rw [if_neg hc3]
      exact ⟨.unboundLocal, rfl⟩

/-- C3 witness: a 1×1 raster with cell width 0 and height 1 makes the
Grid Aggregator fail. -/
theorem grid_nonpositive_dims_fail_witness :
    ∃ e, create_grid_with_color_mapping zeroIndexRaster 1 1 0 1 = .error e :=
  grid_nonpositive_dims_fail zeroIndexRaster 1 1 0 1 (Or.inl (by norm_num))

/-- C8: for a positive-size raster and positive cell dimensions, the Grid
Aggregator visits exactly `⌈h/ch⌉ * ⌈w/cw⌉` cells; the visit order is
row-major starting at (0,0) stepping by `ch` vertically and `cw`
horizontally; and every in-bounds pixel lies in exactly one visited
clipped extent of exactly one visited cell, so boundary cells are clipped, never skipped —
a raster smaller than one cell yields exactly one clipped cell. -/
theorem grid_cells_count_order_partition (h w cw ch : Nat)
    (hh : 0 < h) (hw : 0 < w) (hcw : 0 < cw) (hch : 0 < ch) :
    (gridCells h w cw ch).length = ((h + ch - 1) / ch) * ((w + cw - 1) / cw) ∧
    gridCells h w cw ch =
      (List.range (((h + ch - 1) / ch) * ((w + cw - 1) / cw))).map
        (fun i => ((i / ((w + cw - 1) / cw)) * ch, (i % ((w + cw - 1) / cw)) * cw)) ∧
    ∀ py px : Nat, py < h → px < w →
      ∃! c : Nat × Nat, c ∈ gridCells h w cw ch ∧
        c.1 ≤ py ∧ py < c.1 + ch ∧ c.2 ≤ px ∧ px < c.2 + cw := by
  have hEq := gridCells_eq h w cw ch hcw hch
  refine ⟨by rw [hEq, List.length_map, List.length_range], hEq, ?_⟩
  intro py px hpy hpx
  have hpyR : py / ch < (h + ch - 1) / ch := by
    rw [Nat.div_lt_iff_lt_mul hch]
    calc py < h := hpy
      _ ≤ ch * ((h + ch - 1) / ch) := le_mul_ceilDiv h ch hch
      _ = ((h + ch - 1) / ch) * ch := Nat.mul_comm _ _
  have hpxC : px / cw < (w + cw - 1) / cw := by
    rw [Nat.div_lt_iff_lt_mul hcw]
    calc px < w := hpx
      _ ≤ cw * ((w + cw - 1) / cw) := le_mul_ceilDiv w cw hcw
      _ = ((w + cw - 1) / cw) * cw := Nat.mul_comm _ _
  have hCpos : 0 < (w + cw - 1) / cw := lt_of_le_of_lt (Nat.zero_le _) hpxC
  have hmem : ((py / ch) * ch, (px / cw) * cw) ∈ gridCells h w cw ch := by
    rw [hEq, List.mem_map]
    refine ⟨(py / ch) * ((w + cw - 1) / cw) + px / cw, ?_, ?_⟩
    · rw [List.mem_range]
      calc (py / ch) * ((w + cw - 1) / cw) + px / cw
          < (py / ch) * ((w + cw - 1) / cw) + (w + cw - 1) / cw := by omega
        _ = (py / ch + 1) * ((w + cw - 1) / cw) := (Nat.succ_mul _ _).symm
        _ ≤ ((h + ch - 1) / ch) * ((w + cw - 1) / cw) := Nat.mul_le_mul_right _ hpyR
    · have hdiv : ((py / ch) * ((w + cw - 1) / cw) + px / cw) / ((w + cw - 1) / cw)
          = py / ch := by
        rw [Nat.mul_comm (py / ch) _, Nat.mul_add_div hCpos, Nat.div_eq_of_lt hpxC,
          Nat.add_zero]
      have hmod : ((py / ch) * ((w + cw - 1) / cw) + px / cw) % ((w + cw - 1) / cw)
          = px / cw := by
        rw [Nat.mul_comm (py / ch) _, Nat.mul_add_mod, Nat.mod_eq_of_lt hpxC]
      rw [hdiv, hmod]
  obtain ⟨hy1, hy2⟩ := div_mul_le_and_lt py ch hch
  obtain ⟨hx1, hx2⟩ := div_mul_le_and_lt px cw hcw
  refine ⟨((py / ch) * ch, (px / cw) * cw), ⟨hmem, hy1, hy2, hx1, hx2⟩, ?_⟩
  rintro ⟨c1, c2⟩ ⟨hmem2, hb1, hb2, hb3, hb4⟩
  rw [hEq, List.mem_map] at hmem2
  obtain ⟨i, -, hci⟩ := hmem2
  have hc1 : c1 = (i / ((w + cw - 1) / cw)) * ch := by
    have := congrArg Prod.fst hci
    simpa using this.symm
  have hc2 : c2 = (i % ((w + cw - 1) / cw)) * cw := by
    have := congrArg Prod.snd hci
    simpa using this.symm
  subst hc1
  subst hc2
  have e1 : i / ((w + cw - 1) / cw) = py / ch :=
    div_eq_of_between py _ ch hch hb1 hb2
  have e2 : i % ((w + cw - 1) / cw) = px / cw :=
    div_eq_of_between px _ cw hcw hb3 hb4
  rw [e1, e2]

/-- C8 witness: a 1×1 raster with 2×2 cells yields exactly one clipped
cell. -/
theorem grid_cells_count_order_partition_witness :
    (gridCells 1 1 2 2).length = ((1 + 2 - 1) / 2) * ((1 + 2 - 1) / 2) ∧
    gridCells 1 1 2 2 =
      (List.range (((1 + 2 - 1) / 2) * ((1 + 2 - 1) / 2))).map
        (fun i => ((i / ((1 + 2 - 1) / 2)) * 2, (i % ((1 + 2 - 1) / 2)) * 2)) ∧
    ∀ py px : Nat, py < 1 → px < 1 →
      ∃! c : Nat × Nat, c ∈ gridCells 1 1 2 2 ∧
        c.1 ≤ py ∧ py < c.1 + 2 ∧ c.2 ≤ px ∧ px < c.2 + 2 :=
  grid_cells_count_order_partition 1 1 2 2 (by norm_num) (by norm_num) (by norm_num)
    (by norm_num)

/-- C7: for every index raster and positive cell dimensions, whenever the
Grid Aggregator returns its two rasters, they agree at every in-bounds
pixel that is strictly interior to its cell (at distance ≥ 1 from every
cell boundary, i.e. its offsets modulo the cell size avoid the first and
last row/column of a cell): drawing the grid lines only ever changes
cell-boundary pixels of the display raster relative to the analysis
raster. -/
theorem grid_interior_pixels_agree (img : IndexRaster) (h w : Nat) (dimx dimy : Int)
    (a d : Buf) (hdx : 0 < dimx) (hdy : 0 < dimy)
    (hok : create_grid_with_color_mapping img h w dimx dimy = .ok (a, d))
    (py px : Nat) (hpy : py < h) (hpx : px < w)
    (hy1 : py % dimy.toNat ≠ 0) (hy2 : py % dimy.toNat ≠ dimy.toNat - 1)
    (hx1 : px % dimx.toNat ≠ 0) (hx2 : px % dimx.toNat ≠ dimx.toNat - 1) :
    a py px = d py px := by
  unfold create_grid_with_color_mapping at hok
  rw [if_neg (show ¬dimy = 0 by omega)] at hok
  rw [if_neg (show ¬((if 0 < dimy then pyRange h dimy.toNat else []) ≠ [] ∧ dimx = 0) by
    rintro ⟨-, hx0⟩
    omega)] at hok
  rw [if_pos ⟨hdx, hdy⟩] at hok
  by_cases hcells : gridCells h w dimx.toNat dimy.toNat = []
  · rw [if_pos hcells] at hok
    exact (Except.noConfusion hok)
  · rw [if_neg hcells] at hok
    injection hok with hok2
    rw [Prod.mk.injEq] at hok2
    obtain ⟨ha, hd⟩ := hok2
    obtain ⟨c0, t0, hlist⟩ := List.exists_cons_of_ne_nil hcells
    have hcwpos : 0 < dimx.toNat := by omega
    have hchpos : 0 < dimy.toNat := by omega
    obtain ⟨cl, hmem, hlast⟩ := foldl_gridStep_last img h w dimx.toNat dimy.toNat t0 c0
      (zeroBuf, zeroBuf)
    rw [← hlist] at hmem hlast
    have hform : ∃ i, cl = ((i / ((w + dimx.toNat - 1) / dimx.toNat)) * dimy.toNat,
        (i % ((w + dimx.toNat - 1) / dimx.toNat)) * dimx.toNat) := by
      rw [gridCells_eq h w dimx.toNat dimy.toNat hcwpos hchpos, List.mem_map] at hmem
      obtain ⟨i, -, hci⟩ := hmem
      exact ⟨i, hci.symm⟩
    obtain ⟨i, hcl⟩ := hform
    rw [← ha, ← hd, hlast]
    have hne1 : py ≠ cl.1 := by
      intro hcontra
      apply hy1
      rw [hcontra, hcl]
      exact Nat.mul_mod_left _ _
    have hne2 : py ≠ cl.1 + dimy.toNat - 1 := by
      intro hcontra
      apply hy2
      rw [hcontra, hcl]
      exact mul_add_pred_mod _ _ hchpos
    have hne3 : px ≠ cl.2 := by
      intro hcontra
      apply hx1
      rw [hcontra, hcl]
      exact Nat.mul_mod_left _ _
    have hne4 : px ≠ cl.2 + dimx.toNat - 1 := by
      intro hcontra
      apply hx2
      rw [hcontra, hcl]
      exact mul_add_pred_mod _ _ hcwpos
    exact (drawRect_apply_ne _ cl.1 cl.2 dimx.toNat dimy.toNat h w py px
      hne1 hne2 hne3 hne4).symm

/-- C7 witness: on a 3×3 zero raster with a single 3×3 cell, the two
returned rasters agree at the interior pixel (1,1). -/
theorem grid_interior_pixels_agree_witness : c7pair.1 1 1 = c7pair.2 1 1 :=
  grid_interior_pixels_agree zeroIndexRaster 3 3 3 3 c7pair.1 c7pair.2 (by norm_num)
    (by norm_num) rfl 1 1 (by norm_num) (by norm_num) (by decide) (by decide)
    (by decide) (by decide)

theorem filter_length_mono {α : Type} (p q : α → Bool)
    (himp : ∀ x, p x = true → q x = true) :
    ∀ l : List α, (l.filter p).length ≤ (l.filter q).length := by
  intro l
  induction l with
  | nil => simp
  | cons a t ih =>
    by_cases hp : p a = true
    · have hq := himp a hp
      rw [List.filter_cons, List.filter_cons, if_pos hp, if_pos hq,
        List.length_cons, List.length_cons]
      exact Nat.succ_le_succ ih
    · rw [List.filter_cons, if_neg hp]
      by_cases hq : q a = true
      · rw [List.filter_cons, if_pos hq, List.length_cons]
        exact Nat.le_succ_of_le ih
      · rw [List.filter_cons, if_neg hq]
        exact ih

theorem countPlant_le_countVineyard (img : Buf) (h w outC gndC : Nat) :
    countPlant img h w outC gndC ≤ countVineyard img h w outC := by
  rw [countPlant, countVineyard]
  apply filter_length_mono
  intro p hp
  rw [isPlantPixel, Bool.and_eq_true] at hp
  exact hp.1

theorem plantVals_length (img : Buf) (h w outC gndC : Nat) :
    (plantVals img h w outC gndC).length = countPlant img h w outC gndC :=
  List.length_map _ _

theorem plantVals_bounded (img : Buf) (h w outC gndC : Nat)
    (hbound : ∀ y x, y < h → x < w → img y x ≤ 255) :
    ∀ v ∈ plantVals img h w outC gndC, v ≤ 255 := by
  intro v hv
  rw [plantVals, List.mem_map] at hv
  obtain ⟨p, hp, hpv⟩ := hv
  have hmem := List.mem_of_mem_filter hp
  rw [mem_pixelList] at hmem
  rw [← hpv]
  exact hbound p.1 p.2 hmem.1 hmem.2

/-- C5: whenever the Health Extractor succeeds, the returned
total_vineyard_pixels is the count of pixels different from the outside
sentinel, total_plant_pixels is the count of pixels equal to neither
sentinel (exact per-pixel equality, both checks evaluated), and the
returned area satisfies vine_area = total_plant_pixels * area /
total_vineyard_pixels. -/
theorem extract_counts_and_area (img : Buf) (h w : Nat) (area : ℚ) (outC gndC : Nat)
    (r : HealthStats) (harea : 0 < area)
    (hok : extract_vineyard_health_data img h w area outC gndC = .ok r) :
    r.total_vineyard_pixels = countVineyard img h w outC ∧
    r.total_plant_pixels = countPlant img h w outC gndC ∧
    r.vine_area_meters =
      (r.total_plant_pixels : ℚ) * area / (r.total_vineyard_pixels : ℚ) := by
  obtain ⟨h1, h2, -, h4, -, -⟩ := extract_spec img h w area outC gndC r hok
  exact ⟨h1, h2, by rw [h1, h2, h4]⟩

/-- C5 witness: the 10×10 raster with 100 vineyard pixels, 40 of them
plant pixels, and area 10 yields vine_area = 4 exactly. -/
theorem extract_counts_and_area_witness :
    extract_vineyard_health_data demoRaster10 10 10 10 0 5 = .ok c5stats ∧
    c5stats.total_vineyard_pixels = 100 ∧
    c5stats.total_plant_pixels = 40 ∧
    c5stats.vine_area_meters = 4 := by
  have hok : extract_vineyard_health_data demoRaster10 10 10 10 0 5 = .ok c5stats := rfl
  have h := extract_counts_and_area demoRaster10 10 10 10 0 5 c5stats (by norm_num) hok
  have htv : c5stats.total_vineyard_pixels = 100 := by
    rw [h.1]
    decide
  have htp : c5stats.total_plant_pixels = 40 := by
    rw [h.2.1]
    decide
  refine ⟨hok, htv, htp, ?_⟩
  rw [h.2.2, htv, htp]
  norm_num

/-- C10: whenever the Health Extractor returns, the counts satisfy
0 ≤ total_plant_pixels ≤ total_vineyard_pixels ≤ height * width. -/
theorem extract_counts_bounded (img : Buf) (h w : Nat) (area : ℚ) (outC gndC : Nat)
    (r : HealthStats)
    (hok : extract_vineyard_health_data img h w area outC gndC = .ok r) :
    r.total_plant_pixels ≤ r.total_vineyard_pixels ∧
    r.total_vineyard_pixels ≤ h * w := by
  obtain ⟨h1, h2, -, -, -, -⟩ := extract_spec img h w area outC gndC r hok
  constructor
  · rw [h1, h2]
    exact countPlant_le_countVineyard img h w outC gndC
  · rw [h1]
    calc countVineyard img h w outC ≤ (pixelList h w).length := List.length_filter_le _ _
      _ = h * w := pixelList_length h w

/-- C10 witness: the counts of the 2×2 mixed raster are 2 ≤ 3 ≤ 4. -/
theorem extract_counts_bounded_witness :
    c10stats.total_plant_pixels ≤ c10stats.total_vineyard_pixels ∧
    c10stats.total_vineyard_pixels ≤ 2 * 2 :=
  extract_counts_bounded demoRasterMix 2 2 10 0 5 c10stats rfl

/-- C9: whenever the Health Extractor succeeds with at least one plant
pixel on an 8-bit raster, mean_health = (sum of plant intensities /
total_plant_pixels) / 255, and the percentage is np.interp of that value
over the domain [-1, 1] onto [0, 100]; since mean_health lies in [0, 1],
the interpolation equals 50 + 50 * mean_health and is at least 50. -/
theorem extract_mean_and_percentage (img : Buf) (h w : Nat) (area : ℚ) (outC gndC : Nat)
    (r : HealthStats)
    (hbound : ∀ y x, y < h → x < w → img y x ≤ 255)
    (hok : extract_vineyard_health_data img h w area outC gndC = .ok r)
    (hplant : 0 < r.total_plant_pixels) :
    ∃ m : ℚ,
      r.ndvi_mean_healthiness_level = some m ∧
      m = ((plantVals img h w outC gndC).sum : ℚ) / (r.total_plant_pixels : ℚ) / 255 ∧
      r.percentage_ndvi_mean_level = some (npInterpScale m) ∧
      npInterpScale m = 50 + 50 * m ∧
      50 ≤ npInterpScale m := by
  obtain ⟨-, h2, -, -, h5, h6⟩ := extract_spec img h w area outC gndC r hok
  rw [h2] at hplant
  have hcp : countPlant img h w outC gndC ≠ 0 := by omega
  have hCpos : (0 : ℚ) < (countPlant img h w outC gndC : ℚ) := by
    exact_mod_cast Nat.pos_of_ne_zero hcp
  refine ⟨((plantVals img h w outC gndC).sum : ℚ) /
    (countPlant img h w outC gndC : ℚ) / 255, ?_, ?_, ?_, ?_, ?_⟩
  · rw [h5, if_neg hcp]
  · rw [h2]
  all_goals {
    have hm0 : 0 ≤ ((plantVals img h w outC gndC).sum : ℚ) /
        (countPlant img h w outC gndC : ℚ) / 255 := by positivity
    have hsumnat : (plantVals img h w outC gndC).sum ≤
        (plantVals img h w outC gndC).length * 255 := by
      have := List.sum_le_card_nsmul (plantVals img h w outC gndC) 255
        (plantVals_bounded img h w outC gndC hbound)
      simpa [smul_eq_mul] using this
    have hsum : ((plantVals img h w outC gndC).sum : ℚ) ≤
        255 * (countPlant img h w outC gndC : ℚ) := by
      rw [plantVals_length] at hsumnat
      calc ((plantVals img h w outC gndC).sum : ℚ)
          ≤ ((countPlant img h w outC gndC * 255 : Nat) : ℚ) := by exact_mod_cast hsumnat
        _ = 255 * (countPlant img h w outC gndC : ℚ) := by push_cast; ring
    have hm1 : ((plantVals img h w outC gndC).sum : ℚ) /
        (countPlant img h w outC gndC : ℚ) / 255 ≤ 1 := by
      rw [div_le_one (by norm_num : (0 : ℚ) < 255), div_le_iff₀ hCpos]
      exact hsum
    have hscale : npInterpScale (((plantVals img h w outC gndC).sum : ℚ) /
        (countPlant img h w outC gndC : ℚ) / 255) =
        50 + 50 * (((plantVals img h w outC gndC).sum : ℚ) /
          (countPlant img h w outC gndC : ℚ) / 255) := by
      rw [npInterpScale, if_neg (by linarith)]
      by_cases h1m : 1 ≤ ((plantVals img h w outC gndC).sum : ℚ) /
          (countPlant img h w outC gndC : ℚ) / 255
      · have heq1 : ((plantVals img h w outC gndC).sum : ℚ) /
            (countPlant img h w outC gndC : ℚ) / 255 = 1 := le_antisymm hm1 h1m
        rw [if_pos h1m, heq1]
        norm_num
      · rw [if_neg h1m]
    first
    | (rw [h6, h5, if_neg hcp]; rfl)
    | exact hscale
    | (rw [hscale]; linarith)
  }

/-- C9 witness: the 1×1 plant raster with intensity 7 succeeds with one
plant pixel and the stated mean/percentage relationship. -/
theorem extract_mean_and_percentage_witness :
    ∃ m : ℚ,
      c9stats.ndvi_mean_healthiness_level = some m ∧
      m = ((plantVals demoRaster7 1 1 0 5).sum : ℚ) /
        (c9stats.total_plant_pixels : ℚ) / 255 ∧
      c9stats.percentage_ndvi_mean_level = some (npInterpScale m) ∧
      npInterpScale m = 50 + 50 * m ∧
      50 ≤ npInterpScale m :=
  extract_mean_and_percentage demoRaster7 1 1 10 0 5 c9stats
    (fun y x _ _ => by norm_num [demoRaster7]) rfl (by decide)

/-- C2 (failing-input evaluation): on a 1×1 raster whose only pixel
carries the ground sentinel (total_vineyard_pixels = 1,
total_plant_pixels = 0), the Health Extractor returns a statistics tuple
whose mean and percentage are NaN instead of failing; only the
total_vineyard_pixels = 0 case (second conjunct, an all-outside raster)
actually raises an error. -/
theorem extract_plant_zero_returns_nan :
    (extract_vineyard_health_data demoGroundRaster 1 1 10 0 5 = .ok c2stats ∧
      c2stats.total_vineyard_pixels = 1 ∧
      c2stats.total_plant_pixels = 0 ∧
      c2stats.ndvi_mean_healthiness_level = none ∧
      c2stats.percentage_ndvi_mean_level = none) ∧
    (∃ e, extract_vineyard_health_data zeroBuf 1 1 10 0 0 = .error e) :=
  ⟨⟨rfl, rfl, rfl, rfl, rfl⟩, ⟨.zeroDivision, rfl⟩⟩

theorem cellMean_const128 (y x : Nat) (hidx1 : cellIdx y 2 4 = [y, y + 1])
    (hidx2 : cellIdx x 2 4 = [x, x + 1]) :
    cellMean constIndexRaster128 4 4 y x 2 2 = 128 := by
  rw [cellMean, cellSum, hidx1, hidx2]
  have hcount : cellCount 4 4 y x 2 2 = (min (y + 2) 4 - y) * (min (x + 2) 4 - x) := rfl
  have hy4 : min (y + 2) 4 - y = 2 := by
    have : cellIdx y 2 4 = (List.range (min (y + 2) 4 - y)).map (y + ·) := rfl
    rw [hidx1] at this
    have hlen := congrArg List.length this
    simpa using hlen.symm
  have hx4 : min (x + 2) 4 - x = 2 := by
    have : cellIdx x 2 4 = (List.range (min (x + 2) 4 - x)).map (x + ·) := rfl
    rw [hidx2] at this
    have hlen := congrArg List.length this
    simpa using hlen.symm
  rw [hcount, hy4, hx4]
  simp [constIndexRaster128]
  norm_num

/-- C4 counterexample: for the 4×4 all-128 raster with cell size (2,2),
the rescaled intensity computed by the per-cell step is
int(128 * 255 * 20) = 652800, not int(128/255 * 255 * 20) = 2560: the
code multiplies the raw cell mean by 255·20 without normalizing by 255. -/
theorem rescaled_intensity_not_2560 :
    rescale (cellMean constIndexRaster128 4 4 0 0 2 2) ≠ 2560 := by
  rw [cellMean_const128 0 0 (by decide) (by decide)]
  simp only [rescale, pyTrunc]
  rw [show (128 : ℚ) * 255 * 20 = 652800 by norm_num]
  simp only [Rat.num_ofNat, Rat.den_ofNat]
  decide

/-- C4 amended: for the 4×4 all-128 raster aggregated with cell size
(2,2), the four cells each have mean 128; the rescaled intensity is
int(128 * 255 * 20) = 652800 (the code does not divide the mean by 255);
and the value stored into the 8-bit raster is the wrapped value
652800 mod 256 = 0 — not clamped to 255. -/
theorem rescaled_intensity_wraps :
    gridCells 4 4 2 2 = [(0, 0), (0, 2), (2, 0), (2, 2)] ∧
    cellMean constIndexRaster128 4 4 0 0 2 2 = 128 ∧
    cellMean constIndexRaster128 4 4 0 2 2 2 = 128 ∧
    cellMean constIndexRaster128 4 4 2 0 2 2 = 128 ∧
    cellMean constIndexRaster128 4 4 2 2 2 2 = 128 ∧
    rescale 128 = 652800 ∧
    storeU8 652800 = 0 ∧
    storeU8 652800 ≠ 255 := by
  refine ⟨by decide, ?_, ?_, ?_, ?_, ?_, by decide, by decide⟩
  · exact cellMean_const128 0 0 (by decide) (by decide)
  · exact cellMean_const128 0 2 (by decide) (by decide)
  · exact cellMean_const128 2 0 (by decide) (by decide)
  · exact cellMean_const128 2 2 (by decide) (by decide)
  · simp only [rescale, pyTrunc]
    rw [show (128 : ℚ) * 255 * 20 = 652800 by norm_num]
    simp only [Rat.num_ofNat, Rat.den_ofNat]
    decide

/-- C6: on same-shaped rasters, ndvi returns a raster of the same shape
whose value at every pixel is (A - B) / (A + B) after promotion to exact
arithmetic. -/
theorem ndvi_shape_and_values (nir r : List (List ℚ))
    (hlen : nir.length = r.length)
    (hrow : ∀ i : Nat, (nir.getD i []).length = (r.getD i []).length) :
    (ndvi nir r).length = nir.length ∧
    (∀ i : Nat, ((ndvi nir r).getD i []).length = (nir.getD i []).length) ∧
    (∀ i j : Nat, i < nir.length → j < (nir.getD i []).length →
      ((ndvi nir r).getD i []).getD j 0 =
        ((nir.getD i []).getD j 0 - (r.getD i []).getD j 0) /
          ((nir.getD i []).getD j 0 + (r.getD i []).getD j 0)) := by
  have hl : (ndvi nir r).length = nir.length := by
    rw [ndvi, List.length_zipWith, hlen, Nat.min_self]
  refine ⟨hl, ?_, ?_⟩
  · intro i
    by_cases hi : i < nir.length
    · rw [ndvi, zipWith_getD _ [] [] [] nir r i hi hlen, List.length_zipWith, hrow i,
        Nat.min_self]
    · have hge : nir.length ≤ i := le_of_not_lt hi
      rw [List.getD_eq_default _ _ (by rw [hl]; exact hge), List.getD_eq_default _ _ hge]
  · intro i j hi hj
    have houter : (ndvi nir r).getD i [] =
        List.zipWith (fun a b => (a - b) / (a + b)) (nir.getD i []) (r.getD i []) := by
      rw [ndvi]
      exact zipWith_getD _ [] [] [] nir r i hi hlen
    rw [houter]
    exact zipWith_getD (fun a b => (a - b) / (a + b)) 0 0 0 (nir.getD i [])
      (r.getD i []) j hj (hrow i)

/-- C6 witness: ndvi on the 1×1 rasters nir = [[200]] and r = [[50]]
yields (200 - 50) / (200 + 50) = 3/5 = 0.6. -/
theorem ndvi_shape_and_values_witness :
    ((ndvi [[(200 : ℚ)]] [[(50 : ℚ)]]).getD 0 []).getD 0 0 = (200 - 50) / (200 + 50) ∧
    ((200 : ℚ) - 50) / (200 + 50) = 3 / 5 := by
  constructor
  · have hrow : ∀ i : Nat,
        (([[(200 : ℚ)]] : List (List ℚ)).getD i []).length =
          (([[(50 : ℚ)]] : List (List ℚ)).getD i []).length := by
      intro i
      cases i with
      | zero => rfl
      | succ n => rfl
    have h := ndvi_shape_and_values [[(200 : ℚ)]] [[(50 : ℚ)]] rfl hrow
    have hv := h.2.2 0 0 (by simp) (by simp)
    simpa using hv
  · norm_num
